import Mathlib

/-!
Verification of the BoringOS kernel core against its specification.

The definitions below are a shallow embedding of the repository's Rust
sources (kernel/src/boot/mod.rs, kernel/src/multitasking/{scheduler,stack,pcb}.rs,
kernel/src/arch/x86_64/memory/mod.rs, src/arch/x86_64/interrupts/mod.rs).
Machine integers (u64/usize/u32) are modelled as `Nat`, with reductions
modulo 2^32 made explicit where u32 wrap-around matters.  Fallible code
(panics, `unwrap`, failed `assert!`) is modelled with `Option`, `none`
standing for a panic.  Types of the repository that are not present under
the provided sources (the address primitives and `MemoryArea` methods, and
the TCB) are modelled from the specification, as marked in their doc
comments.
-/

/-! ## Memory areas and address primitives -/

/-- The page size used throughout the kernel (`PAGE_SIZE` in
`arch/x86_64/memory/mod.rs`). -/
def PAGE_SIZE : Nat := 0x1000

/-- Modelled from the spec: `MemoryArea<A>` (its definition is not among the
provided sources; only its uses are).  A pair of a start address and a byte
length; the derived `end` is exclusive.  Addresses are modelled as `Nat`. -/
structure MemoryArea where
  start : Nat
  length : Nat
deriving DecidableEq, Repr

/-- The derived exclusive end address of a memory area
(`end_address = start + length`). -/
def MemoryArea.end_address (a : MemoryArea) : Nat := a.start + a.length

/-- Membership of an address in the half-open interval of a memory area. -/
def MemoryArea.contains_addr (a : MemoryArea) (n : Nat) : Prop :=
  a.start ≤ n ∧ n < a.end_address

instance (a : MemoryArea) (n : Nat) : Decidable (a.contains_addr n) := by
  unfold MemoryArea.contains_addr; infer_instance

/-- The set of addresses of a memory area, as a half-open interval. -/
def MemoryArea.toSet (a : MemoryArea) : Set Nat := Set.Ico a.start a.end_address

/-- Modelled from the spec: `MemoryArea::is_contained_in` (not among the
provided sources).  The spec defines it as proper set containment on the
half-open interval; this is the executable arithmetic characterization,
proved equivalent to proper set containment in
`is_contained_in_iff_ssubset` below. -/
def MemoryArea.is_contained_in (a b : MemoryArea) : Prop :=
  (a.length = 0 ∧ 0 < b.length) ∨
    (0 < a.length ∧ b.start ≤ a.start ∧ a.end_address ≤ b.end_address ∧
      (b.start < a.start ∨ a.end_address < b.end_address))

instance (a b : MemoryArea) : Decidable (a.is_contained_in b) := by
  unfold MemoryArea.is_contained_in; infer_instance

/-- The executable containment predicate means exactly proper (strict) set
containment of half-open intervals, as the spec's data model states. -/
theorem is_contained_in_iff_ssubset (a b : MemoryArea) :
    a.is_contained_in b ↔ a.toSet ⊂ b.toSet := by
  have hmem : ∀ (c : MemoryArea) (n : Nat),
      n ∈ c.toSet ↔ c.start ≤ n ∧ n < c.start + c.length := by
    intro c n
    simp [MemoryArea.toSet, MemoryArea.end_address, Set.mem_Ico]
  constructor
  · intro h
    have hsub : a.toSet ⊆ b.toSet := by
      intro n hn
      rw [hmem] at hn ⊢
      unfold MemoryArea.is_contained_in MemoryArea.end_address at h
      rcases h with ⟨ha0, hb⟩ | ⟨ha, hbs, hbe, hstrict⟩ <;> omega
    rw [Set.ssubset_iff_of_subset hsub]
    unfold MemoryArea.is_contained_in MemoryArea.end_address at h
    rcases h with ⟨ha0, hb⟩ | ⟨ha, hbs, hbe, hstrict⟩
    · exact ⟨b.start, by rw [hmem]; omega, by rw [hmem]; omega⟩
    · rcases hstrict with h | h
      · exact ⟨b.start, by rw [hmem]; omega, by rw [hmem]; omega⟩
      · exact ⟨a.start + a.length, by rw [hmem]; omega, by rw [hmem]; omega⟩
  · intro h
    have hsub := h.subset
    obtain ⟨w, hwb, hwa⟩ := (Set.ssubset_iff_of_subset hsub).mp h
    rw [hmem] at hwb
    rw [hmem] at hwa
    unfold MemoryArea.is_contained_in MemoryArea.end_address
    rcases Nat.eq_zero_or_pos a.length with ha | ha
    · left
      exact ⟨ha, by omega⟩
    · right
      have h1 := hsub ((hmem a a.start).mpr (by omega))
      have h2 := hsub ((hmem a (a.start + a.length - 1)).mpr (by omega))
      rw [hmem] at h1 h2
      exact ⟨ha, by omega, by omega, by omega⟩

/-- Modelled from the spec: page-number extraction (`addr >> 12`). -/
def page_num (addr : Nat) : Nat := addr / PAGE_SIZE

/-- Modelled from the spec: the address of the first byte of a page
(inverse of `page_num` on page starts). -/
def from_page_num (p : Nat) : Nat := p * PAGE_SIZE

/-- Modelled from the spec: in-page offset extraction (the low 12 bits). -/
def offset_in_page (addr : Nat) : Nat := addr % PAGE_SIZE

/-- Modelled from the spec: page-align-down masks the low 12 bits. -/
def page_align_down (addr : Nat) : Nat := addr / PAGE_SIZE * PAGE_SIZE

/-! ## The memory-map filter (kernel/src/boot/mod.rs) -/

/-- The page-rounding of the initramfs area done by `fn initramfs()` in
`kernel/src/boot/mod.rs` (lines 21-34): the start is aligned to the
previous page boundary and the length is rounded up to the next page
multiple (length zero stays zero). -/
def initramfs_rounded (area : MemoryArea) : MemoryArea :=
  { start := page_align_down area.start
    length :=
      if 0 < area.length then (area.length - 1) / PAGE_SIZE * PAGE_SIZE + PAGE_SIZE
      else 0 }

/-- One step of pulling the next entry from the underlying boot memory-map
iterator (`self.multiboot_iterator.next()`), with the iterator modelled as
the list of its remaining items. -/
def pull (rest : List MemoryArea) : Option MemoryArea × List MemoryArea :=
  (rest.head?, rest.tail)

/-- The loop body of `MemoryMapIterator::next` (kernel/src/boot/mod.rs
lines 75-132), run to exhaustion.  State: the remaining items of the
underlying iterator (`rest`), `current_entry` (`cur`), and the suffix of
`to_exclude` starting at `exclude_index` (`xs`).  The `fuel` argument is
only a structural-recursion device: every loop iteration of the source
strictly decreases `2 * rest.length + (if cur.isSome then 1 else 0) +
xs.length`, so any fuel of at least that value (plus one) yields the
source's full output; with fuel `0` the remaining output is cut off. -/
def runFilter : Nat → List MemoryArea → Option MemoryArea → List MemoryArea → List MemoryArea
  | 0, _, _, _ => []
  | _ + 1, _, none, _ => []
  | fuel + 1, rest, some current_entry, [] =>
      current_entry :: runFilter fuel (pull rest).2 (pull rest).1 []
  | fuel + 1, rest, some current_entry, x :: xs =>
      if x.is_contained_in current_entry then
        let entry_before : MemoryArea :=
          ⟨current_entry.start, x.start - current_entry.start⟩
        let entry_after : MemoryArea :=
          ⟨x.end_address, current_entry.end_address - x.end_address⟩
        if entry_after.end_address = entry_after.start then
          if entry_before.end_address = entry_before.start then
            runFilter fuel (pull rest).2 (pull rest).1 xs
          else
            entry_before :: runFilter fuel (pull rest).2 (pull rest).1 xs
        else
          if entry_before.end_address = entry_before.start then
            runFilter fuel rest (some entry_after) xs
          else
            entry_before :: runFilter fuel rest (some entry_after) xs
      else
        current_entry :: runFilter fuel (pull rest).2 (pull rest).1 (x :: xs)

/-- The full output of the memory-map filter for a given exclusion list and
input memory map (the iterator is drained; the fuel bound strictly exceeds
the loop measure `2 * inputs.length + to_exclude.length`). -/
def memoryMapFilter (to_exclude : List MemoryArea) (inputs : List MemoryArea) :
    List MemoryArea :=
  runFilter (2 * inputs.length + to_exclude.length + 1) inputs.tail inputs.head? to_exclude

/-- The exclusion-list construction of `MemoryMapIterator::new`
(kernel/src/boot/mod.rs lines 50-66): the kernel area and the page-rounded
initramfs area, ordered by start address, followed by the filter. -/
def filtered_memory_map (kernel_area initramfs_area : MemoryArea)
    (inputs : List MemoryArea) : List MemoryArea :=
  let ia := initramfs_rounded initramfs_area
  let to_exclude :=
    if kernel_area.start ≤ ia.start then [kernel_area, ia] else [ia, kernel_area]
  memoryMapFilter to_exclude inputs

/-! ## Initramfs virtual mapping (kernel/src/arch/x86_64/memory/mod.rs) -/

/-- The start of the virtual area where the initramfs is mapped, exactly as
in the source: `0xffff_8000_0000_0000 + 512 * 512 * 512` (note: the source
does not multiply by the page size). -/
def INITRAMFS_MAP_AREA_START : Nat := 0xffff800000000000 + 512 * 512 * 512

/-- The virtual initramfs area established by `memory::init`
(kernel/src/arch/x86_64/memory/mod.rs lines 105-121) and returned by
`get_initramfs_area`: it starts at `INITRAMFS_MAP_AREA_START` plus the
in-page offset of the physical start, with the physical length. -/
def get_initramfs_area (physical_initramfs_area : MemoryArea) : MemoryArea :=
  { start := INITRAMFS_MAP_AREA_START + offset_in_page physical_initramfs_area.start
    length := physical_initramfs_area.length }

/-! ## PCB (kernel/src/multitasking/pcb.rs) -/

/-- The states a process can have (`ProcessState`). -/
inductive ProcessState where
  | active
  | dead
deriving DecidableEq, Repr

/-- A process control block.  The `address_space` field of the source holds
the page-table root and segment list; no claim in scope depends on its
contents, so it is not carried here. -/
structure PCB where
  thread_count : Nat
  state : ProcessState
deriving DecidableEq, Repr

/-- Determines if this process can be dropped (`PCB::is_droppable`). -/
def PCB.is_droppable (p : PCB) : Prop := p.thread_count = 0

instance (p : PCB) : Decidable p.is_droppable := by
  unfold PCB.is_droppable; infer_instance

/-- The `Drop` implementation of `PCB`: `assert!(self.is_droppable())`.
A failed assertion is a kernel panic, modelled as `none`. -/
def PCB.drop_pcb (p : PCB) : Option Unit :=
  if p.is_droppable then some () else none

/-! ## Multiboot header (kernel/src/boot/mod.rs lines 210-277) -/

/-- The protocol-1 multiboot header structure (`#[repr(C, packed)] struct
Multiboot1`), fields as `Nat` values of the corresponding `u32`s. -/
structure Multiboot1 where
  magic : Nat
  flags : Nat
  checksum : Nat
  header_addr : Nat
  load_addr : Nat
  load_end_addr : Nat
  bss_end_addr : Nat
  entry_addr : Nat
  mode_type : Nat
  width : Nat
  height : Nat
  depth : Nat
deriving DecidableEq, Repr

/-- The protocol-2 multiboot header structure (`#[repr(C, packed)] struct
Multiboot2`): four `u32`s, two `u16`s and a final `u32`. -/
structure Multiboot2 where
  magic : Nat
  arch : Nat
  header_length : Nat
  checksum : Nat
  end_tag_type : Nat
  end_tag_flags : Nat
  end_tag_size : Nat
deriving DecidableEq, Repr

/-- Both multiboot headers combined (`struct MultibootHeader`). -/
structure MultibootHeader where
  mb1 : Multiboot1
  mb2 : Multiboot2
deriving DecidableEq, Repr

/-- The size in bytes of the packed `Multiboot2` struct
(`core::mem::size_of::<Multiboot2>()`): with `repr(C, packed)` this is the
sum of the field sizes, 4+4+4+4+2+2+4 = 24. -/
def MB2_SIZE : Nat := 4 + 4 + 4 + 4 + 2 + 2 + 4

/-- The magic number of the protocol-1 header (`MB_MAGIC`). -/
def MB_MAGIC : Nat := 0x1BADB002

/-- The flags of the protocol-1 header (`MB_FLAGS`). -/
def MB_FLAGS : Nat := 0

/-- The magic number of the protocol-2 header (`MB2_MAGIC`). -/
def MB2_MAGIC : Nat := 0xE85250D6

/-- The value of `u32::max_value()`. -/
def U32_MAX : Nat := 0xFFFFFFFF

/-- The statically constructed multiboot header (`MultibootHeader::new`,
kernel/src/boot/mod.rs lines 250-276).  The checksum computations
`u32::max_value() - ... + 1` do not underflow or overflow in `u32`, so
plain `Nat` arithmetic coincides with the source's `u32` arithmetic. -/
def multiboot_header : MultibootHeader :=
  { mb1 :=
      { magic := MB_MAGIC
        flags := MB_FLAGS
        checksum := U32_MAX - MB_MAGIC - MB_FLAGS + 1
        header_addr := 0
        load_addr := 0
        load_end_addr := 0
        bss_end_addr := 0
        entry_addr := 0
        mode_type := 0
        width := 0
        height := 0
        depth := 0 }
    mb2 :=
      { magic := MB2_MAGIC
        arch := 0
        header_length := MB2_SIZE
        checksum := U32_MAX - MB2_MAGIC - MB2_SIZE + 1
        end_tag_type := 0
        end_tag_flags := 0
        end_tag_size := 8 } }

/-! ## Scheduler (kernel/src/multitasking/scheduler.rs) -/

/-- Modelled from the spec: the lifecycle states of a thread
(`state ∈ {Ready, Running, Dead, Blocked}`); the TCB type itself is not
among the provided sources. -/
inductive ThreadState where
  | ready
  | running
  | dead
  | blocked
deriving DecidableEq, Repr

/-- Modelled from the spec: the thread control block.  The spec lists the
fields (id, pid, priority, state, context, kernel_stack, user_stack?); the
saved machine context and the stacks take no part in the ordering or in the
scheduler's state transitions, so only the fields the scheduler inspects
are carried. -/
structure TCB where
  id : Nat
  pid : Nat
  priority : Nat
  state : ThreadState
deriving DecidableEq, Repr

/-- Returns true if the thread is dead (`is_dead ⇔ state == Dead`). -/
def TCB.is_dead (t : TCB) : Prop := t.state = ThreadState.dead

instance (t : TCB) : Decidable t.is_dead := by
  unfold TCB.is_dead; infer_instance

/-- Marks the thread ready (`set_ready`). -/
def TCB.set_ready (t : TCB) : TCB := { t with state := ThreadState.ready }

/-- Marks the thread running (`set_running`). -/
def TCB.set_running (t : TCB) : TCB := { t with state := ThreadState.running }

/-- Modelled from the spec: the total order on TCBs used by the ready heap,
"by (priority, tie-break by id)".  `tcb_le a b` is the spec-side rendering
of the Rust `a <= b`; the direction of the id tie-break is not fixed by the
spec, and no claim in scope depends on it. -/
def tcb_le (a b : TCB) : Prop :=
  a.priority < b.priority ∨ (a.priority = b.priority ∧ a.id ≤ b.id)

instance (a b : TCB) : Decidable (tcb_le a b) := by
  unfold tcb_le; infer_instance

/-- The `peek` of the ready heap (`BinaryHeap<TCB>` with the TCB order):
the greatest element with respect to `tcb_le`, or `none` when empty.  The
heap's contents are modelled as the list of its elements. -/
def heap_peek : List TCB → Option TCB
  | [] => none
  | t :: ts => some (ts.foldl (fun a b => if tcb_le a b then b else a) t)

/-- The `pop` of the ready heap: removes and returns the greatest element. -/
def heap_pop (l : List TCB) : Option (TCB × List TCB) :=
  match heap_peek l with
  | none => none
  | some m => some (m, l.erase m)

/-- The per-CPU scheduler state: `READY_LIST`, `CURRENT_THREAD` and
`OLD_THREAD` of kernel/src/multitasking/scheduler.rs. -/
structure CPUState where
  ready : List TCB
  current : TCB
  old : Option TCB
deriving DecidableEq, Repr

/-- The clean-up performed by `after_context_switch`
(kernel/src/multitasking/scheduler.rs lines 83-98) on the ready list and
the `OLD_THREAD` slot: a dead old thread is dropped, a live one is pushed
back onto the ready list; either way the slot is emptied. -/
def after_context_switch (ready : List TCB) (old : Option TCB) :
    List TCB × Option TCB :=
  match old with
  | none => (ready, none)
  | some o => if o.is_dead then (ready, none) else (o :: ready, none)

/-- The guard computed by `schedule_next_thread` (lines 39-45):
`schedule_needed = (peek().is_some() && peek() >= CURRENT_THREAD) ||
CURRENT_THREAD.is_dead()`.  Note the `||` applies after the conjunction, as
in the source. -/
def schedule_needed (s : CPUState) : Bool :=
  ((heap_peek s.ready).isSome &&
    (match heap_peek s.ready with
     | some top => decide (tcb_le s.current top)
     | none => false))
  || decide s.current.is_dead

/-- One invocation of `schedule_next_thread`
(kernel/src/multitasking/scheduler.rs lines 30-79) together with the
`after_context_switch` clean-up it triggers on the same CPU's state.  The
result is `none` when the source panics (the `debug_assert!` on
`OLD_THREAD`, or the `.unwrap()` of `pop()` on an empty ready list); the
boolean records whether a context switch was performed. -/
def schedule_next_thread (s : CPUState) : Option (CPUState × Bool) :=
  match s.old with
  | some _ => none
  | none =>
      if schedule_needed s then
        match heap_pop s.ready with
        | none => none
        | some (top, rest) =>
            let old_thread := s.current
            let old_thread :=
              if old_thread.is_dead then old_thread else old_thread.set_ready
            let current := top.set_running
            let cleaned := after_context_switch rest (some old_thread)
            some ({ ready := cleaned.1, current := current, old := cleaned.2 }, true)
      else
        some (s, false)

/-! ## Interrupt descriptor table (src/arch/x86_64/interrupts/mod.rs) -/

/-- The handler functions installed in the IDT, named after the source
functions. -/
inductive HandlerId where
  | divide_by_zero_handler
  | breakpoint_handler
  | page_fault_handler
  | timer_handler
  | irq1_handler
  | schedule_interrupt
  | empty_handler
deriving DecidableEq, Repr

/-- An IDT entry as configured through the external `x86_64` crate: a
handler plus the gate's interrupt-disabling behaviour (`true` = interrupt
gate, the CPU clears IF on entry; `false` = trap gate, IF is left as it
was). -/
structure IdtEntry where
  handler : HandlerId
  interrupts_disabled : Bool
deriving DecidableEq, Repr

/-- Models `Entry::set_handler_fn` of the `x86_64` crate: installs a
handler with the crate's default gate options, which disable interrupts on
entry. -/
def set_handler_fn (h : HandlerId) : IdtEntry :=
  { handler := h, interrupts_disabled := true }

/-- Models `EntryOptions::disable_interrupts(disable)` of the `x86_64`
crate: sets whether the CPU disables interrupts when the handler is
invoked. -/
def disable_interrupts (e : IdtEntry) (disable : Bool) : IdtEntry :=
  { e with interrupts_disabled := disable }

/-- The interrupt number for the scheduling interrupt
(`SCHEDULE_INTERRUPT_NUM = 0x22`); the IDT's `interrupts` array starts at
vector 0x20, so it corresponds to `interrupts[2]`. -/
def SCHEDULE_INTERRUPT_NUM : Nat := 0x22

/-- The `interrupts[_]` entries of the static IDT as built in
src/arch/x86_64/interrupts/mod.rs lines 15-31: timer at 0, keyboard at 1,
the schedule interrupt at 2 with `disable_interrupts(false)`, and the
spurious-interrupt sink at 0xf. -/
def IDT_interrupts (i : Nat) : Option IdtEntry :=
  if i = 0 then some (set_handler_fn HandlerId.timer_handler)
  else if i = 1 then some (set_handler_fn HandlerId.irq1_handler)
  else if i = 2 then
    some (disable_interrupts (set_handler_fn HandlerId.schedule_interrupt) false)
  else if i = 0xf then some (set_handler_fn HandlerId.empty_handler)
  else none

/-- The observable actions of an interrupt handler body, in program
order. -/
inductive HandlerStep where
  | set_priority (p : Nat)
  | signal_eoi
  | call_schedule_next_thread
  | cli
deriving DecidableEq, Repr

/-- The body of `schedule_interrupt` (src/arch/x86_64/interrupts/mod.rs
lines 92-101) as its sequence of observable actions: raise the LAPIC task
priority, signal EOI, invoke `schedule_next_thread`, disable interrupts,
restore the priority. -/
def schedule_interrupt_body : List HandlerStep :=
  [HandlerStep.set_priority 0x20, HandlerStep.signal_eoi,
   HandlerStep.call_schedule_next_thread, HandlerStep.cli,
   HandlerStep.set_priority 0x0]

/-! ## Stack manager (kernel/src/multitasking/stack.rs) -/

/-- The access type of a stack (`AccessType`). -/
inductive AccessType where
  | user_accessible
  | kernel_only
deriving DecidableEq, Repr

/-- The page flag bitset (`PageFlags`), one boolean per flag. -/
structure PageFlags where
  readable : Bool := false
  writable : Bool := false
  executable : Bool := false
  user_accessible : Bool := false
  global : Bool := false
  present : Bool := false
  no_execute : Bool := false
deriving DecidableEq, Repr

/-- Bitwise or of two page-flag sets (the `|` / `|=` of the bitflags). -/
def PageFlags.union (a b : PageFlags) : PageFlags :=
  { readable := a.readable || b.readable
    writable := a.writable || b.writable
    executable := a.executable || b.executable
    user_accessible := a.user_accessible || b.user_accessible
    global := a.global || b.global
    present := a.present || b.present
    no_execute := a.no_execute || b.no_execute }

/-- The `READABLE` page flag. -/
def PageFlags.READABLE : PageFlags := { readable := true }

/-- The `WRITABLE` page flag. -/
def PageFlags.WRITABLE : PageFlags := { writable := true }

/-- The `USER_ACCESSIBLE` page flag. -/
def PageFlags.USER_ACCESSIBLE : PageFlags := { user_accessible := true }

/-- The flags a stack maps its pages with (stack.rs lines 103-107 and
131-135): `READABLE | WRITABLE`, plus `USER_ACCESSIBLE` for a
user-accessible stack. -/
def stack_flags (access : AccessType) : PageFlags :=
  let flags := PageFlags.READABLE.union PageFlags.WRITABLE
  if access = AccessType.user_accessible then flags.union PageFlags.USER_ACCESSIBLE
  else flags

/-- The segment kinds (`SegmentType`); the stack code uses `MemoryOnly`. -/
inductive SegmentType where
  | memory_only
  | file_backed
deriving DecidableEq, Repr

/-- A segment registered in an address space (`Segment::new(area, flags,
type)`). -/
structure Segment where
  area : MemoryArea
  flags : PageFlags
  kind : SegmentType
deriving DecidableEq, Repr

/-- A stack (`struct Stack`), addresses as `Nat`.  Only the
`FullDescending` stack type is implemented by the source; all operations
below are its `FullDescending` branches. -/
structure Stack where
  top_address : Nat
  bottom_address : Nat
  max_size : Nat
  base_stack_pointer : Nat
  access_type : AccessType
deriving DecidableEq, Repr

/-- Grows the stack by the given amount (`Stack::grow`, stack.rs lines
123-156): the new bottom is `max(top - max_size, bottom - amount)` and
every page in `[page_num(new_bottom), page_num(old_bottom))` is mapped with
the stack's flags.  The returned list is the sequence of `(page address,
flags)` mappings performed.  The source's address subtraction forbids
wrap-around; over `Nat`, `bottom - amount` truncates at zero, which the
subsequent `max` with `top - max_size` subsumes for any stack with
`top ≥ max_size`. -/
def Stack.grow (s : Stack) (amount : Nat) : Stack × List (Nat × PageFlags) :=
  let new_bottom := max (s.top_address - s.max_size) (s.bottom_address - amount)
  let flags := stack_flags s.access_type
  let first_page_to_map := page_num new_bottom
  let last_page_to_map := page_num s.bottom_address
  ({ s with bottom_address := new_bottom },
    (List.range' first_page_to_map (last_page_to_map - first_page_to_map)).map
      (fun p => (from_page_num p, flags)))

/-- Shrinks the stack by the given amount (`Stack::shrink`, stack.rs lines
159-184): the new bottom is `min(top, bottom + amount)` and every page in
`[page_num(old_bottom), page_num(new_bottom))` is unmapped.  The returned
list is the sequence of unmapped page addresses. -/
def Stack.shrink (s : Stack) (amount : Nat) : Stack × List Nat :=
  let new_bottom := min s.top_address (s.bottom_address + amount)
  let first_page_to_unmap := page_num s.bottom_address
  let last_page_to_unmap := page_num new_bottom
  ({ s with bottom_address := new_bottom },
    (List.range' first_page_to_unmap (last_page_to_unmap - first_page_to_unmap)).map
      from_page_num)

/-- Resizes the stack to the given size (`Stack::resize`, stack.rs lines
187-197): grow or shrink by the signed difference between the requested
size and the current size `top - bottom`. -/
def Stack.resize (s : Stack) (new_size : Nat) : Stack :=
  let current_size : Int := (s.top_address : Int) - (s.bottom_address : Int)
  let difference : Int := (new_size : Int) - current_size
  if 0 < difference then (s.grow difference.toNat).1
  else (s.shrink (-difference).toNat).1

/-- Creates a new stack (`Stack::new`, stack.rs lines 84-120,
`FullDescending` branch): top, bottom and base stack pointer all start at
`start_address + max_size`; a `MemoryOnly` segment covering
`[start_address, start_address + max_size)` with the stack's flags is
registered in the address space; then the stack is resized to
`initial_size`. -/
def Stack.new (initial_size max_size start_address : Nat) (access : AccessType) :
    Stack × Segment :=
  let stack : Stack :=
    { top_address := start_address + max_size
      bottom_address := start_address + max_size
      max_size := max_size
      base_stack_pointer := start_address + max_size
      access_type := access }
  let seg : Segment :=
    { area := ⟨start_address, max_size⟩, flags := stack_flags access
      kind := SegmentType.memory_only }
  (stack.resize initial_size, seg)

/-- A call in a grow/shrink/resize sequence. -/
inductive StackOp where
  | grow (amount : Nat)
  | shrink (amount : Nat)
  | resize (new_size : Nat)
deriving DecidableEq, Repr

/-- Applies one stack operation (discarding the page-mapping log). -/
def apply_op (s : Stack) (op : StackOp) : Stack :=
  match op with
  | StackOp.grow n => (s.grow n).1
  | StackOp.shrink n => (s.shrink n).1
  | StackOp.resize n => s.resize n

/-- Applies a sequence of stack operations in order. -/
def apply_ops (s : Stack) (ops : List StackOp) : Stack :=
  ops.foldl apply_op s

/-- The size part of the stack invariant: the bottom does not exceed the
top and the stack size `top - bottom` is bounded by `max_size`. -/
def stack_size_inv (s : Stack) : Prop :=
  s.bottom_address ≤ s.top_address ∧ s.top_address - s.bottom_address ≤ s.max_size

/-- The alignment part of the stack invariant: both boundary addresses are
page-aligned. -/
def stack_aligned (s : Stack) : Prop :=
  s.top_address % PAGE_SIZE = 0 ∧ s.bottom_address % PAGE_SIZE = 0

/-- An operation whose argument is a whole number of pages. -/
def op_page_aligned : StackOp → Prop
  | StackOp.grow n => n % PAGE_SIZE = 0
  | StackOp.shrink n => n % PAGE_SIZE = 0
  | StackOp.resize n => n % PAGE_SIZE = 0

instance (s : Stack) : Decidable (stack_size_inv s) := by
  unfold stack_size_inv; infer_instance

instance (s : Stack) : Decidable (stack_aligned s) := by
  unfold stack_aligned; infer_instance

instance (op : StackOp) : Decidable (op_page_aligned op) := by
  cases op <;> (unfold op_page_aligned; infer_instance)

/-! ## Concrete threads used in the scheduler scenarios -/

/-- A dead thread, for exercising the scheduler with a dead
`CURRENT_THREAD`. -/
def dead_thread : TCB := ⟨1, 1, 0, ThreadState.dead⟩

/-- A live low-priority thread (priority 3). -/
def thread_c : TCB := ⟨3, 1, 3, ThreadState.running⟩

/-- A ready thread of priority 5. -/
def thread_a : TCB := ⟨1, 1, 5, ThreadState.ready⟩

/-- A ready thread of priority 7. -/
def thread_b : TCB := ⟨2, 1, 7, ThreadState.ready⟩

/-! ## Claim C1 -/

/-- Claim C1, counterexample.  The claim states that when the ready list is
empty no switch and no pop occurs regardless of whether `CURRENT_THREAD` is
dead.  In the source, `schedule_needed` is `(peek().is_some() && peek() >=
current) || current.is_dead()`, so an empty ready list with a dead current
thread still enters the switch path and `ready_list.pop().unwrap()` panics
on the empty heap: the call does not complete without a switch, it
panics. -/
theorem C1_counterexample :
    schedule_next_thread ⟨[], dead_thread, none⟩ = none ∧
      ¬∃ s', schedule_next_thread ⟨[], dead_thread, none⟩ = some (s', false) := by
  refine ⟨by decide, ?_⟩
  rintro ⟨s', h⟩
  rw [show schedule_next_thread ⟨[], dead_thread, none⟩ = none from by decide] at h
  cases h

/-- Claim C1 (amended): with `OLD_THREAD` empty, `schedule_next_thread`
performs a thread switch iff the ready list has a top element and (that top
element is `≥ CURRENT_THREAD` under the TCB ordering or `CURRENT_THREAD` is
dead); when the ready list is empty and the current thread is alive the
call returns without a switch and without popping; but when the ready list
is empty and the current thread is dead the source pops the empty ready
list and panics (`unwrap` of `None`) instead of returning without a
switch. -/
theorem C1_schedule_guard (ready : List TCB) (cur : TCB) :
    ((∃ s', schedule_next_thread ⟨ready, cur, none⟩ = some (s', true)) ↔
      (∃ top, heap_peek ready = some top ∧ (tcb_le cur top ∨ cur.is_dead))) ∧
    (ready = [] → ¬cur.is_dead →
      schedule_next_thread ⟨ready, cur, none⟩ = some (⟨ready, cur, none⟩, false)) ∧
    (ready = [] → cur.is_dead →
      schedule_next_thread ⟨ready, cur, none⟩ = none) := by
  cases ready with
  | nil =>
    by_cases hd : cur.is_dead
    · refine ⟨?_, fun _ hnd => absurd hd hnd, fun _ _ => ?_⟩
      · constructor
        · rintro ⟨s', hs'⟩
          simp [schedule_next_thread, schedule_needed, heap_peek, heap_pop, hd] at hs'
        · rintro ⟨top, htop, _⟩
          simp [heap_peek] at htop
      · simp [schedule_next_thread, schedule_needed, heap_peek, heap_pop, hd]
    · refine ⟨?_, fun _ _ => ?_, fun _ hdead => absurd hdead hd⟩
      · constructor
        · rintro ⟨s', hs'⟩
          simp [schedule_next_thread, schedule_needed, heap_peek, heap_pop, hd] at hs'
        · rintro ⟨top, htop, _⟩
          simp [heap_peek] at htop
      · simp [schedule_next_thread, schedule_needed, heap_peek, hd]
  | cons t ts =>
    set m := ts.foldl (fun a b => if tcb_le a b then b else a) t with hm
    have hpeek : heap_peek (t :: ts) = some m := rfl
    refine ⟨?_, ?_, ?_⟩
    · by_cases hneed : tcb_le cur m ∨ cur.is_dead
      · have hb : schedule_needed ⟨t :: ts, cur, none⟩ = true := by
          simp only [schedule_needed, hpeek, Option.isSome_some, Bool.true_and,
            Bool.or_eq_true, decide_eq_true_eq]
          exact hneed
        apply iff_of_true
        · refine ⟨⟨(after_context_switch ((t :: ts).erase m)
              (some (if cur.is_dead then cur else cur.set_ready))).1,
              m.set_running,
              (after_context_switch ((t :: ts).erase m)
                (some (if cur.is_dead then cur else cur.set_ready))).2⟩, ?_⟩
          simp only [schedule_next_thread, hb, if_true, heap_pop, hpeek]
        · exact ⟨m, hpeek, hneed⟩
      · push_neg at hneed
        have hb : schedule_needed ⟨t :: ts, cur, none⟩ = false := by
          simp only [schedule_needed, hpeek, Option.isSome_some, Bool.true_and,
            Bool.or_eq_false_iff, decide_eq_false_iff_not]
          exact hneed
        apply iff_of_false
        · rintro ⟨s', hs'⟩
          simp [schedule_next_thread, hb] at hs'
        · rintro ⟨top, htop, hge⟩
          rw [hpeek] at htop
          injection htop with hmt
          subst hmt
          rcases hge with h | h
          · exact hneed.1 h
          · exact hneed.2 h
    · intro h
      simp at h
    · intro h
      simp at h

/-- Claim C1, witness: a live low-priority current thread is preempted by a
ready priority-7 thread, and with an empty ready list and a live current
thread the call completes without a switch. -/
theorem C1_witness :
    (∃ s', schedule_next_thread ⟨[thread_b], thread_c, none⟩ = some (s', true)) ∧
      schedule_next_thread ⟨[], thread_c, none⟩ = some (⟨[], thread_c, none⟩, false) :=
  ⟨(C1_schedule_guard [thread_b] thread_c).1.mpr ⟨thread_b, rfl, Or.inl (by decide)⟩,
    (C1_schedule_guard [] thread_c).2.1 rfl (by decide)⟩

/-! ## Claim C2 -/

/-- Claim C2: with T_a (priority 5) and T_b (priority 7) on the ready list
and the live T_c (priority 3) current, one invocation of
`schedule_next_thread` (through `after_context_switch`) switches: the new
`CURRENT_THREAD` is T_b in state Running, `OLD_THREAD` is empty, and T_c is
back on the ready list in state Ready. -/
theorem C2_schedule_scenario :
    ∃ s', schedule_next_thread ⟨[thread_a, thread_b], thread_c, none⟩ = some (s', true) ∧
      s'.current = thread_b.set_running ∧ s'.current.state = ThreadState.running ∧
      s'.old = none ∧ thread_c.set_ready ∈ s'.ready ∧
      (thread_c.set_ready).state = ThreadState.ready :=
  ⟨⟨[thread_c.set_ready, thread_a], thread_b.set_running, none⟩, by decide⟩

/-! ## Claim C3 -/

/-- Claim C3, counterexample.  The claim states that the IDT entry for the
schedule-interrupt vector disables interrupts on entry (clears IF); the
source configures that entry with `.disable_interrupts(false)`, so the gate
does not clear IF. -/
theorem C3_counterexample :
    ∃ e, IDT_interrupts 2 = some e ∧ e.interrupts_disabled = false :=
  ⟨disable_interrupts (set_handler_fn HandlerId.schedule_interrupt) false, rfl, rfl⟩

/-- Claim C3 (amended): the IDT entry for the schedule-interrupt vector is
explicitly configured NOT to disable interrupts (`disable_interrupts(false)`,
a trap gate leaving IF unchanged), and the handler signals end-of-interrupt
before invoking `schedule_next_thread` (and only disables interrupts after
that call returns). -/
theorem C3_schedule_idt_entry :
    IDT_interrupts 2 =
      some { handler := HandlerId.schedule_interrupt, interrupts_disabled := false } ∧
    schedule_interrupt_body[1]? = some HandlerStep.signal_eoi ∧
    schedule_interrupt_body[2]? = some HandlerStep.call_schedule_next_thread ∧
    (∀ i, i < 2 → schedule_interrupt_body[i]? ≠
      some HandlerStep.call_schedule_next_thread) ∧
    schedule_interrupt_body[3]? = some HandlerStep.cli := by
  decide

/-! ## Claim C4 -/

/-- Claim C4, counterexample.  The claim puts the initramfs window base at
`0xffff_8000_0000_0000 + 512³ · 4096`; the source defines
`INITRAMFS_MAP_AREA_START = 0xffff_8000_0000_0000 + 512 * 512 * 512`
without the page-size factor, so for the physical area starting at
`0x20100` the virtual start is `0xffff_8000_0800_0100`, not
`0xffff_8080_0000_0100`. -/
theorem C4_counterexample :
    get_initramfs_area ⟨0x20100, 0x2000⟩ = ⟨0xffff800008000100, 0x2000⟩ ∧
      (get_initramfs_area ⟨0x20100, 0x2000⟩).start ≠
        (0xffff800000000000 + 512 * 512 * 512 * 4096) + offset_in_page 0x20100 := by
  decide

/-- Claim C4 (amended): after memory initialization with physical initramfs
area P, the virtual initramfs area starts at the initramfs-window base
`0xffff_8000_0000_0000 + 512³` (= `0xffff_8000_0800_0000`, with no
page-size factor) plus the in-page offset of P's start address, and has
length equal to P's length. -/
theorem C4_initramfs_window (P : MemoryArea) :
    get_initramfs_area P = ⟨0xffff800008000000 + offset_in_page P.start, P.length⟩ ∧
      INITRAMFS_MAP_AREA_START = 0xffff800008000000 := by
  constructor
  · show MemoryArea.mk (INITRAMFS_MAP_AREA_START + offset_in_page P.start) P.length = _
    norm_num [INITRAMFS_MAP_AREA_START]
  · norm_num [INITRAMFS_MAP_AREA_START]

/-! ## Claim C5 -/

/-- Claim C5: for the memory map `[(0x0, 0x100000)]` with kernel area
`(0x10000, 0x5000)` and initramfs area `(0x20000, 0x2000)`, the filter
emits exactly `(0x0, 0x10000)`, `(0x15000, 0xb000)`, `(0x22000, 0xde000)`
in that order. -/
theorem C5_filter_scenario :
    filtered_memory_map ⟨0x10000, 0x5000⟩ ⟨0x20000, 0x2000⟩ [⟨0x0, 0x100000⟩] =
      [⟨0x0, 0x10000⟩, ⟨0x15000, 0xb000⟩, ⟨0x22000, 0xde000⟩] := by
  decide

/-! ## Claim C9 -/

/-- Claim C9: dropping a PCB panics unless its `thread_count` is 0,
`is_droppable` holds iff `thread_count == 0`, and the process state (Active
or Dead) has no bearing on droppability. -/
theorem C9_pcb_droppable (n : Nat) (st : ProcessState) :
    (PCB.is_droppable ⟨n, st⟩ ↔ n = 0) ∧
      ((PCB.drop_pcb ⟨n, st⟩).isSome ↔ n = 0) ∧
      PCB.drop_pcb ⟨n, ProcessState.active⟩ = PCB.drop_pcb ⟨n, ProcessState.dead⟩ := by
  refine ⟨Iff.rfl, ?_, ?_⟩
  · unfold PCB.drop_pcb
    split <;> simp_all [PCB.is_droppable]
  · unfold PCB.drop_pcb PCB.is_droppable
    simp

/-! ## Claim C10 -/

/-- Claim C10: the static multiboot header satisfies, in u32 arithmetic
modulo 2^32: protocol-1 checksum = −(magic + flags) with magic
`0x1BADB002` and flags 0; protocol-2 checksum = −(magic + arch +
header_length) with magic `0xE85250D6`, arch 0 and header_length the size
of the packed protocol-2 header (24 bytes); and the protocol-2 end tag is
`{type = 0, flags = 0, size = 8}`. -/
theorem C10_multiboot_checksums :
    multiboot_header.mb1.magic = 0x1BADB002 ∧
    multiboot_header.mb1.flags = 0 ∧
    multiboot_header.mb1.checksum < 2 ^ 32 ∧
    (multiboot_header.mb1.checksum + multiboot_header.mb1.magic +
      multiboot_header.mb1.flags) % 2 ^ 32 = 0 ∧
    multiboot_header.mb2.magic = 0xE85250D6 ∧
    multiboot_header.mb2.arch = 0 ∧
    multiboot_header.mb2.header_length = MB2_SIZE ∧ MB2_SIZE = 24 ∧
    multiboot_header.mb2.checksum < 2 ^ 32 ∧
    (multiboot_header.mb2.checksum + multiboot_header.mb2.magic +
      multiboot_header.mb2.arch + multiboot_header.mb2.header_length) % 2 ^ 32 = 0 ∧
    multiboot_header.mb2.end_tag_type = 0 ∧
    multiboot_header.mb2.end_tag_flags = 0 ∧
    multiboot_header.mb2.end_tag_size = 8 := by
  decide

/-! ## Claims C7 and C8 -/

/-- The first component of `Stack.grow`, written out. -/
theorem Stack.grow_fst (s : Stack) (n : Nat) :
    (s.grow n).1 =
      { s with bottom_address := max (s.top_address - s.max_size) (s.bottom_address - n) } :=
  rfl

/-- The first component of `Stack.shrink`, written out. -/
theorem Stack.shrink_fst (s : Stack) (n : Nat) :
    (s.shrink n).1 =
      { s with bottom_address := min s.top_address (s.bottom_address + n) } :=
  rfl

/-- Growing preserves the size invariant, for an arbitrary amount: the new
bottom is clamped at `top - max_size` and never rises above the old
bottom. -/
theorem grow_size_inv (s : Stack) (n : Nat) (h : stack_size_inv s) :
    stack_size_inv (s.grow n).1 := by
  rw [Stack.grow_fst]
  unfold stack_size_inv at *
  simp only at *
  omega

/-- Shrinking preserves the size invariant, for an arbitrary amount: the
new bottom is clamped at `top`. -/
theorem shrink_size_inv (s : Stack) (n : Nat) (h : stack_size_inv s) :
    stack_size_inv (s.shrink n).1 := by
  rw [Stack.shrink_fst]
  unfold stack_size_inv at *
  simp only at *
  omega

/-- Resizing preserves the size invariant, for an arbitrary requested
size. -/
theorem resize_size_inv (s : Stack) (k : Nat) (h : stack_size_inv s) :
    stack_size_inv (s.resize k) := by
  unfold Stack.resize
  dsimp only
  split
  · exact grow_size_inv _ _ h
  · exact shrink_size_inv _ _ h

/-- Growing by a page-multiple preserves page alignment, provided
`max_size` is a page multiple. -/
theorem grow_aligned (s : Stack) (n : Nat) (h : stack_aligned s)
    (hmax : s.max_size % PAGE_SIZE = 0) (hn : n % PAGE_SIZE = 0) :
    stack_aligned (s.grow n).1 := by
  rw [Stack.grow_fst]
  unfold stack_aligned PAGE_SIZE at *
  simp only at *
  omega

/-- Shrinking by a page-multiple preserves page alignment. -/
theorem shrink_aligned (s : Stack) (n : Nat) (h : stack_aligned s)
    (hn : n % PAGE_SIZE = 0) :
    stack_aligned (s.shrink n).1 := by
  rw [Stack.shrink_fst]
  unfold stack_aligned PAGE_SIZE at *
  simp only at *
  omega

/-- Resizing to a page-multiple size preserves page alignment, provided
`max_size` is a page multiple. -/
theorem resize_aligned (s : Stack) (k : Nat) (h : stack_aligned s)
    (hmax : s.max_size % PAGE_SIZE = 0) (hk : k % PAGE_SIZE = 0) :
    stack_aligned (s.resize k) := by
  unfold Stack.resize
  dsimp only
  split
  · apply grow_aligned _ _ h hmax
    unfold stack_aligned PAGE_SIZE at *
    omega
  · apply shrink_aligned _ _ h
    unfold stack_aligned PAGE_SIZE at *
    omega

/-- Claim C7, counterexample.  The claim asserts page alignment of the
boundary addresses after calls with arbitrary usize amounts; `Stack::grow`
sets `bottom = max(top - max_size, bottom - amount)` without any rounding,
so growing the S2 user stack by the non-page-multiple `0x123` leaves the
bottom address misaligned (offset `0xedd` into a page). -/
theorem C7_counterexample :
    stack_aligned (Stack.new 0 0x200000 0x7f8000000000 AccessType.user_accessible).1 ∧
      ¬ stack_aligned (((Stack.new 0 0x200000 0x7f8000000000
          AccessType.user_accessible).1.grow 0x123).1) ∧
      ((Stack.new 0 0x200000 0x7f8000000000
          AccessType.user_accessible).1.grow 0x123).1.bottom_address % PAGE_SIZE = 0xedd := by
  decide

/-- Claim C7 (amended): for every stack created by `Stack::new` and every
sequence of grow/shrink/resize calls, `top_address - bottom_address ≤
max_size` (and `bottom ≤ top`) holds after each call for arbitrary usize
amounts; page alignment of both boundary addresses additionally holds
provided the creation parameters (start address, max size, initial size)
and every amount in the sequence are multiples of the page size — an
unaligned grow or shrink amount moves the bottom to an unaligned
address. -/
theorem C7_stack_invariants (initial_size max_size start_address : Nat)
    (access : AccessType) (ops : List StackOp) :
    stack_size_inv (apply_ops (Stack.new initial_size max_size start_address access).1 ops) ∧
    (max_size % PAGE_SIZE = 0 → initial_size % PAGE_SIZE = 0 →
      start_address % PAGE_SIZE = 0 → (∀ op ∈ ops, op_page_aligned op) →
      stack_aligned (apply_ops (Stack.new initial_size max_size start_address access).1 ops)) := by
  have hbase_size : stack_size_inv (Stack.new initial_size max_size start_address access).1 := by
    apply resize_size_inv
    unfold stack_size_inv
    simp only
    omega
  have hstep_size : ∀ (l : List StackOp) (s : Stack),
      stack_size_inv s → stack_size_inv (apply_ops s l) := by
    intro l
    induction l with
    | nil => intro s hs; exact hs
    | cons op l ih =>
        intro s hs
        show stack_size_inv (apply_ops (apply_op s op) l)
        apply ih
        cases op with
        | grow n => exact grow_size_inv _ _ hs
        | shrink n => exact shrink_size_inv _ _ hs
        | resize n => exact resize_size_inv _ _ hs
  refine ⟨hstep_size ops _ hbase_size, ?_⟩
  intro hmax hinit hstart hops
  have hmax' : (Stack.new initial_size max_size start_address access).1.max_size = max_size := by
    unfold Stack.new Stack.resize
    dsimp only
    split <;> rfl
  have hbase_al : stack_aligned (Stack.new initial_size max_size start_address access).1 := by
    apply resize_aligned
    · unfold stack_aligned PAGE_SIZE at *
      simp only
      omega
    · exact hmax
    · exact hinit
  have hmax_pres : ∀ (op : StackOp) (s : Stack), (apply_op s op).max_size = s.max_size := by
    intro op s
    cases op with
    | grow n => rw [apply_op, Stack.grow_fst]
    | shrink n => rw [apply_op, Stack.shrink_fst]
    | resize n =>
        show (Stack.resize s n).max_size = s.max_size
        unfold Stack.resize
        dsimp only
        split
        · rw [Stack.grow_fst]
        · rw [Stack.shrink_fst]
  have hstep_al : ∀ (l : List StackOp) (s : Stack), s.max_size = max_size →
      stack_aligned s → (∀ op ∈ l, op_page_aligned op) → stack_aligned (apply_ops s l) := by
    intro l
    induction l with
    | nil => intro s _ hs _; exact hs
    | cons op l ih =>
        intro s hsm hs hl
        show stack_aligned (apply_ops (apply_op s op) l)
        have hop := hl op (List.mem_cons_self op l)
        apply ih
        · rw [hmax_pres op s, hsm]
        · cases op with
          | grow n => exact grow_aligned _ _ hs (by rw [hsm]; exact hmax) hop
          | shrink n => exact shrink_aligned _ _ hs hop
          | resize n => exact resize_aligned _ _ hs (by rw [hsm]; exact hmax) hop
        · intro o ho
          exact hl o (List.mem_cons_of_mem op ho)
  exact hstep_al ops _ hmax' hbase_al hops

/-- Claim C7, witness: the S2 stack run through a page-aligned
grow/shrink/resize sequence keeps both invariants. -/
theorem C7_witness :
    stack_size_inv (apply_ops (Stack.new 0 0x200000 0x7f8000000000
      AccessType.user_accessible).1
      [StackOp.grow 0x3000, StackOp.shrink 0x1000, StackOp.resize 0x2000]) ∧
    stack_aligned (apply_ops (Stack.new 0 0x200000 0x7f8000000000
      AccessType.user_accessible).1
      [StackOp.grow 0x3000, StackOp.shrink 0x1000, StackOp.resize 0x2000]) :=
  ⟨(C7_stack_invariants 0 0x200000 0x7f8000000000 AccessType.user_accessible
      [StackOp.grow 0x3000, StackOp.shrink 0x1000, StackOp.resize 0x2000]).1,
    (C7_stack_invariants 0 0x200000 0x7f8000000000 AccessType.user_accessible
      [StackOp.grow 0x3000, StackOp.shrink 0x1000, StackOp.resize 0x2000]).2
      (by decide) (by decide) (by decide) (by decide)⟩

/-- Claim C8: creating the S2 user stack (start `0x0000_7f80_0000_0000`,
max `0x20_0000`, initial size 0, user-accessible) registers a `MemoryOnly`
segment of size `max` with flags `READABLE | WRITABLE | USER_ACCESSIBLE`;
growing it by `0x3000` leaves `bottom_address = 0x0000_7f80_001f_d000` and
maps exactly the three newly covered pages with those flags; and in
general `grow` clamps the bottom at `top - max_size` and maps exactly the
pages newly covered between the new and the old bottom. -/
theorem C8_user_stack_grow :
    ((Stack.new 0 0x200000 0x7f8000000000 AccessType.user_accessible).1.grow
        0x3000).1.bottom_address = 0x7f80001fd000 ∧
    ((Stack.new 0 0x200000 0x7f8000000000 AccessType.user_accessible).1.grow
        0x3000).2 =
      [(0x7f80001fd000, stack_flags AccessType.user_accessible),
       (0x7f80001fe000, stack_flags AccessType.user_accessible),
       (0x7f80001ff000, stack_flags AccessType.user_accessible)] ∧
    stack_flags AccessType.user_accessible =
      { readable := true, writable := true, user_accessible := true } ∧
    (Stack.new 0 0x200000 0x7f8000000000 AccessType.user_accessible).2 =
      ⟨⟨0x7f8000000000, 0x200000⟩, stack_flags AccessType.user_accessible,
        SegmentType.memory_only⟩ ∧
    (∀ (s : Stack) (n : Nat), (s.grow n).1.bottom_address =
      max (s.top_address - s.max_size) (s.bottom_address - n)) ∧
    (∀ (s : Stack) (n p : Nat),
      ((from_page_num p, stack_flags s.access_type) ∈ (s.grow n).2 ↔
        page_num ((s.grow n).1.bottom_address) ≤ p ∧ p < page_num s.bottom_address)) := by
  refine ⟨by decide, by decide, by decide, by decide, fun s n => rfl, ?_⟩
  intro s n p
  show (from_page_num p, stack_flags s.access_type) ∈
      (List.range' (page_num (max (s.top_address - s.max_size) (s.bottom_address - n)))
        (page_num s.bottom_address -
          page_num (max (s.top_address - s.max_size) (s.bottom_address - n)))).map
        (fun q => (from_page_num q, stack_flags s.access_type)) ↔ _
  rw [List.mem_map]
  constructor
  · rintro ⟨q, hq, heq⟩
    rw [List.mem_range'_1] at hq
    have hqp : q = p := by
      have := congrArg Prod.fst heq
      simp only [from_page_num, PAGE_SIZE] at this
      omega
    subst hqp
    rw [Stack.grow_fst]
    simp only
    omega
  · intro hp
    rw [Stack.grow_fst] at hp
    simp only at hp
    exact ⟨p, List.mem_range'_1.mpr (by omega), rfl⟩

/-! ## Claim C6: general soundness of the memory-map filter -/

/-- Area `a` lies entirely before area `b`: its exclusive end does not
reach `b`'s start.  For half-open intervals this is simultaneously
"disjoint" and "in ascending order". -/
def area_before (a b : MemoryArea) : Prop := a.end_address ≤ b.start

instance (a b : MemoryArea) : Decidable (area_before a b) := by
  unfold area_before; infer_instance

/-- The list of areas still to be consumed by the filter: the current
entry (if any) followed by the remaining input iterator items. -/
def areasOf (cur : Option MemoryArea) (rest : List MemoryArea) : List MemoryArea :=
  cur.toList ++ rest

/-- The separation condition two adjacent exclusions must satisfy relative
to a shared enclosing area `E`: either a non-empty gap lies between them,
or the second one stops short of `E`'s end.  (Without it, the second
exclusion can coincide exactly with the remainder of `E` after the first,
fail the proper-containment test, and leak into the output.) -/
def gap_ok (areas : List MemoryArea) (x y : MemoryArea) : Prop :=
  ∀ E ∈ areas, x.is_contained_in E → y.is_contained_in E →
    (x.end_address < y.start ∨ y.end_address < E.end_address)

instance (areas : List MemoryArea) (x y : MemoryArea) : Decidable (gap_ok areas x y) := by
  unfold gap_ok; infer_instance

/-- With no current entry the filter emits nothing, whatever remains. -/
theorem runFilter_none (fuel : Nat) (rest : List MemoryArea) (xs : List MemoryArea) :
    runFilter fuel rest none xs = [] := by
  cases fuel <;> rfl

/-- Pulling from the iterator re-assembles the same list of areas. -/
theorem pull_areas (l : List MemoryArea) : areasOf (pull l).1 (pull l).2 = l := by
  cases l <;> rfl

/-- The area list with a present current entry, unfolded. -/
theorem areasOf_some (C : MemoryArea) (rest : List MemoryArea) :
    areasOf (some C) rest = C :: rest := rfl

/-- The area list recovered from a head/tail split. -/
theorem areasOf_head_tail (l : List MemoryArea) : areasOf l.head? l.tail = l := by
  cases l <;> rfl

/-- Arithmetic bounds packed in proper containment of a non-empty area. -/
theorem contained_bounds {x E : MemoryArea} (hx : 0 < x.length)
    (h : x.is_contained_in E) :
    E.start ≤ x.start ∧ x.end_address ≤ E.end_address ∧
      (E.start < x.start ∨ x.end_address < E.end_address) := by
  unfold MemoryArea.is_contained_in at h
  rcases h with ⟨h0, _⟩ | ⟨_, h⟩
  · omega
  · exact h

/-- One unfolding of the filter loop on a non-empty exclusion list. -/
theorem runFilter_cons_eq (fuel : Nat) (rest : List MemoryArea) (C x : MemoryArea)
    (xs : List MemoryArea) :
    runFilter (fuel + 1) rest (some C) (x :: xs) =
      if x.is_contained_in C then
        if (⟨x.end_address, C.end_address - x.end_address⟩ : MemoryArea).end_address =
            (⟨x.end_address, C.end_address - x.end_address⟩ : MemoryArea).start then
          if (⟨C.start, x.start - C.start⟩ : MemoryArea).end_address =
              (⟨C.start, x.start - C.start⟩ : MemoryArea).start then
            runFilter fuel (pull rest).2 (pull rest).1 xs
          else
            (⟨C.start, x.start - C.start⟩ : MemoryArea) ::
              runFilter fuel (pull rest).2 (pull rest).1 xs
        else
          if (⟨C.start, x.start - C.start⟩ : MemoryArea).end_address =
              (⟨C.start, x.start - C.start⟩ : MemoryArea).start then
            runFilter fuel rest (some ⟨x.end_address, C.end_address - x.end_address⟩) xs
          else
            (⟨C.start, x.start - C.start⟩ : MemoryArea) ::
              runFilter fuel rest (some ⟨x.end_address, C.end_address - x.end_address⟩) xs
      else
        C :: runFilter fuel (pull rest).2 (pull rest).1 (x :: xs) := rfl

/-- One unfolding of the filter loop on an exhausted exclusion list. -/
theorem runFilter_nil_eq (fuel : Nat) (rest : List MemoryArea) (C : MemoryArea) :
    runFilter (fuel + 1) rest (some C) [] =
      C :: runFilter fuel (pull rest).2 (pull rest).1 [] := rfl

/-- Containment in the after-split remainder transfers back to containment
in the split area. -/
theorem contained_in_C_of_after {C x a : MemoryArea}
    (hxpos : 0 < x.length) (hc : x.is_contained_in C)
    (haA : a.is_contained_in ⟨x.end_address, C.end_address - x.end_address⟩) :
    a.is_contained_in C := by
  have hxb := contained_bounds hxpos hc
  unfold MemoryArea.is_contained_in MemoryArea.end_address at haA ⊢
  dsimp only at haA
  unfold MemoryArea.end_address at hxb
  rcases haA with ⟨ha0, hA⟩ | ⟨hapos, h5, h6, h7⟩
  · exact Or.inl ⟨ha0, by omega⟩
  · refine Or.inr ⟨hapos, by omega, by omega, Or.inl (by omega)⟩

/-- The adjacent-exclusion separation condition survives the split of the
enclosing area: whatever held relative to `C :: rest` holds relative to
`after(C, x) :: rest`. -/
theorem gap_ok_after {C x : MemoryArea} {rest : List MemoryArea} {a b : MemoryArea}
    (hxpos : 0 < x.length) (hc : x.is_contained_in C)
    (hab : gap_ok (C :: rest) a b) :
    gap_ok ((⟨x.end_address, C.end_address - x.end_address⟩ : MemoryArea) :: rest) a b := by
  intro E hE haE hbE
  rcases List.mem_cons.mp hE with rfl | hE'
  · have haC := contained_in_C_of_after hxpos hc haE
    have hbC := contained_in_C_of_after hxpos hc hbE
    have hxb := contained_bounds hxpos hc
    rcases hab C (List.mem_cons_self C rest) haC hbC with h | h
    · exact Or.inl h
    · right
      unfold MemoryArea.end_address at *
      dsimp only
      omega
  · exact hab E (List.mem_cons_of_mem _ hE') haE hbE

/-- The separation condition restricted to a superset of areas implies it
for the tail of areas. -/
theorem gap_ok_tail {C : MemoryArea} {rest : List MemoryArea} {a b : MemoryArea}
    (hab : gap_ok (C :: rest) a b) : gap_ok rest a b :=
  fun E hE => hab E (List.mem_cons_of_mem _ hE)

/-- A non-empty exclusion sitting after `x` cannot be contained in `C` when
`x` reaches `C`'s end. -/
theorem no_tail_in_full_C {C x y : MemoryArea}
    (hy : 0 < y.length) (hcont : y.is_contained_in C)
    (hafter : area_before x y) (hxe : x.end_address = C.end_address) : False := by
  have hb := contained_bounds hy hcont
  unfold area_before MemoryArea.end_address at *
  omega

/-- A non-empty exclusion sitting after `x` cannot be contained in `C` when
`x` itself already starts at or after `C`'s end. -/
theorem no_tail_in_C_skip {C x y : MemoryArea}
    (hxpos : 0 < x.length) (hxlow : C.end_address ≤ x.start)
    (hy : 0 < y.length) (hcont : y.is_contained_in C)
    (hafter : area_before x y) : False := by
  have hb := contained_bounds hy hcont
  unfold area_before MemoryArea.end_address at *
  omega

/-- A later non-empty exclusion contained in `C` and separated from `x`
(gap, or stopping short of `C`'s end) is properly contained in the
after-split remainder of `C`. -/
theorem tail_contained_in_after {C x y : MemoryArea}
    (hxpos : 0 < x.length) (hc : x.is_contained_in C)
    (hy : 0 < y.length) (hcont : y.is_contained_in C)
    (hafter : area_before x y)
    (hstrict : x.end_address < y.start ∨ y.end_address < C.end_address) :
    y.is_contained_in ⟨x.end_address, C.end_address - x.end_address⟩ := by
  have hxb := contained_bounds hxpos hc
  have hyb := contained_bounds hy hcont
  unfold MemoryArea.is_contained_in
  right
  unfold area_before MemoryArea.end_address at *
  dsimp only
  exact ⟨hy, by omega, by omega, by omega⟩

/-- An element of the filter output produced after the current entry was
disposed of starts at or after the current entry's end. -/
theorem pulled_lower_bound {C : MemoryArea} {rest : List MemoryArea} {fuel : Nat}
    {xs : List MemoryArea}
    (hCfst : ∀ r ∈ rest, area_before C r)
    (ihc4 : ∀ o ∈ runFilter fuel (pull rest).2 (pull rest).1 xs, ∀ C',
      (pull rest).1 = some C' → C'.start ≤ o.start) :
    ∀ o ∈ runFilter fuel (pull rest).2 (pull rest).1 xs, C.end_address ≤ o.start := by
  intro o ho
  cases rest with
  | nil =>
      rw [show (pull ([] : List MemoryArea)).1 = none from rfl, runFilter_none] at ho
      cases ho
  | cons r rs =>
      have h5 := ihc4 o ho r rfl
      have h6 := hCfst r (List.mem_cons_self r rs)
      unfold area_before at h6
      omega

/-- Soundness invariant of the filter loop: starting from well-formed state
(areas in ascending disjoint order; every remaining exclusion non-empty and
properly contained in a remaining area; adjacent exclusions separated
relative to any shared area; exclusions in ascending disjoint order), the
emitted areas are in ascending disjoint order, covered by the remaining
areas, disjoint from every remaining exclusion, and bounded below by the
current entry's start. -/
theorem runFilter_sound :
    ∀ (fuel : Nat) (rest : List MemoryArea) (cur : Option MemoryArea)
      (xs : List MemoryArea),
      List.Pairwise area_before (areasOf cur rest) →
      (∀ x ∈ xs, 0 < x.length ∧ ∃ E ∈ areasOf cur rest, x.is_contained_in E) →
      List.Chain' (gap_ok (areasOf cur rest)) xs →
      List.Pairwise area_before xs →
      List.Pairwise area_before (runFilter fuel rest cur xs) ∧
      (∀ o ∈ runFilter fuel rest cur xs, ∀ n, o.contains_addr n →
        ∃ E ∈ areasOf cur rest, E.contains_addr n) ∧
      (∀ o ∈ runFilter fuel rest cur xs, ∀ x ∈ xs, ∀ n,
        o.contains_addr n → ¬x.contains_addr n) ∧
      (∀ o ∈ runFilter fuel rest cur xs, ∀ C, cur = some C → C.start ≤ o.start) := by
  intro fuel
  induction fuel with
  | zero =>
      intro rest cur xs _ _ _ _
      rw [show runFilter 0 rest cur xs = [] from rfl]
      refine ⟨List.Pairwise.nil, ?_, ?_, ?_⟩
      · intro o ho
        cases ho
      · intro o ho
        cases ho
      · intro o ho
        cases ho
  | succ fuel ih =>
      intro rest cur xs h1 h2 h3 h4
      cases cur with
      | none =>
          rw [runFilter_none]
          refine ⟨List.Pairwise.nil, ?_, ?_, ?_⟩
          · intro o ho
            cases ho
          · intro o ho
            cases ho
          · intro o ho
            cases ho
      | some C =>
        rw [areasOf_some] at h1 h2 h3 ⊢
        have hCfst : ∀ r ∈ rest, area_before C r := (List.pairwise_cons.mp h1).1
        have hrest : List.Pairwise area_before rest := (List.pairwise_cons.mp h1).2
        cases xs with
        | nil =>
          obtain ⟨ihc1, ihc2, ihc3, ihc4⟩ :=
            ih (pull rest).2 (pull rest).1 []
              (by rw [pull_areas]; exact hrest)
              (by intro y hy; cases hy)
              (by trivial)
              List.Pairwise.nil
          have hlb := pulled_lower_bound hCfst ihc4
          rw [runFilter_nil_eq]
          refine ⟨List.pairwise_cons.mpr ⟨fun o ho => hlb o ho, ihc1⟩, ?_, ?_, ?_⟩
          · intro o ho n hn
            rcases List.mem_cons.mp ho with rfl | ho'
            · exact ⟨o, List.mem_cons_self _ _, hn⟩
            · obtain ⟨E, hE, hEn⟩ := ihc2 o ho' n hn
              rw [pull_areas] at hE
              exact ⟨E, List.mem_cons_of_mem C hE, hEn⟩
          · intro o ho y hy
            cases hy
          · intro o ho C' hC'
            injection hC' with h7
            subst h7
            rcases List.mem_cons.mp ho with rfl | ho'
            · exact le_refl _
            · have h8 := hlb o ho'
              simp only [MemoryArea.end_address] at h8
              omega
        | cons x xs' =>
          have hxget := h2 x (List.mem_cons_self x xs')
          have hxpos : 0 < x.length := hxget.1
          by_cases hc : x.is_contained_in C
          · -- the exclusion is contained in the current entry: split it
            have hxb := contained_bounds hxpos hc
            have hxb' : C.start ≤ x.start ∧ x.start + x.length ≤ C.start + C.length ∧
                (C.start < x.start ∨ x.start + x.length < C.start + C.length) := by
              simp only [MemoryArea.end_address] at hxb
              exact hxb
            have hstrict_for : ∀ y ∈ xs', y.is_contained_in C →
                (x.end_address < y.start ∨ y.end_address < C.end_address) := by
              intro y hy hyC
              cases xs' with
              | nil => cases hy
              | cons z zs =>
                rcases List.mem_cons.mp hy with rfl | hzs
                · exact (List.chain'_cons.mp h3).1 C (List.mem_cons_self _ _) hc hyC
                · have hz_pos : 0 < z.length :=
                    (h2 z (List.mem_cons_of_mem _ (List.mem_cons_self _ _))).1
                  have h_xz : area_before x z :=
                    (List.pairwise_cons.mp h4).1 z (List.mem_cons_self _ _)
                  have h_zy : area_before z y :=
                    (List.pairwise_cons.mp (List.pairwise_cons.mp h4).2).1 y hzs
                  left
                  simp only [area_before, MemoryArea.end_address] at h_xz h_zy ⊢
                  omega
            rw [runFilter_cons_eq, if_pos hc]
            by_cases hAe : (⟨x.end_address, C.end_address - x.end_address⟩ :
                MemoryArea).end_address =
                (⟨x.end_address, C.end_address - x.end_address⟩ : MemoryArea).start
            · -- the after-part is empty: the exclusion reaches C's end
              rw [if_pos hAe]
              have hxe' : x.start + x.length = C.start + C.length := by
                simp only [MemoryArea.end_address] at hAe
                omega
              have hnoC : ∀ y ∈ xs', 0 < y.length ∧ ∃ E ∈ rest, y.is_contained_in E := by
                intro y hy
                obtain ⟨hyval, E, hE, hconty⟩ := h2 y (List.mem_cons_of_mem _ hy)
                refine ⟨hyval, ?_⟩
                rcases List.mem_cons.mp hE with rfl | hE'
                · refine (no_tail_in_full_C hyval hconty
                    ((List.pairwise_cons.mp h4).1 y hy) ?_).elim
                  simp only [MemoryArea.end_address]
                  omega
                · exact ⟨E, hE', hconty⟩
              obtain ⟨ihc1, ihc2, ihc3, ihc4⟩ :=
                ih (pull rest).2 (pull rest).1 xs'
                  (by rw [pull_areas]; exact hrest)
                  (by rw [pull_areas]; exact hnoC)
                  (by
                    rw [pull_areas]
                    exact List.Chain'.imp (fun a b hab => gap_ok_tail hab)
                      (List.Chain'.tail h3))
                  (List.pairwise_cons.mp h4).2
              have hlb := pulled_lower_bound hCfst ihc4
              by_cases hBe : (⟨C.start, x.start - C.start⟩ : MemoryArea).end_address =
                  (⟨C.start, x.start - C.start⟩ : MemoryArea).start
              · rw [if_pos hBe]
                refine ⟨ihc1, ?_, ?_, ?_⟩
                · intro o ho n hn
                  obtain ⟨E, hE, hEn⟩ := ihc2 o ho n hn
                  rw [pull_areas] at hE
                  exact ⟨E, List.mem_cons_of_mem C hE, hEn⟩
                · intro o ho y hy n hn
                  rcases List.mem_cons.mp hy with rfl | hy'
                  · obtain ⟨E, hE, hEn⟩ := ihc2 o ho n hn
                    rw [pull_areas] at hE
                    have h6 := hCfst E hE
                    intro hxn
                    simp only [area_before, MemoryArea.contains_addr,
                      MemoryArea.end_address] at h6 hEn hxn
                    omega
                  · exact ihc3 o ho y hy' n hn
                · intro o ho C' hC'
                  injection hC' with h7
                  subst h7
                  have h8 := hlb o ho
                  simp only [MemoryArea.end_address] at h8
                  omega
              · rw [if_neg hBe]
                have hBlow : ∀ o ∈ runFilter fuel (pull rest).2 (pull rest).1 xs',
                    area_before (⟨C.start, x.start - C.start⟩ : MemoryArea) o := by
                  intro o ho
                  have h8 := hlb o ho
                  simp only [area_before, MemoryArea.end_address] at h8 ⊢
                  omega
                refine ⟨List.pairwise_cons.mpr ⟨hBlow, ihc1⟩, ?_, ?_, ?_⟩
                · intro o ho n hn
                  rcases List.mem_cons.mp ho with rfl | ho'
                  · refine ⟨C, List.mem_cons_self _ _, ?_⟩
                    simp only [MemoryArea.contains_addr, MemoryArea.end_address] at hn ⊢
                    omega
                  · obtain ⟨E, hE, hEn⟩ := ihc2 o ho' n hn
                    rw [pull_areas] at hE
                    exact ⟨E, List.mem_cons_of_mem C hE, hEn⟩
                · intro o ho y hy n hn
                  rcases List.mem_cons.mp ho with rfl | ho'
                  · rcases List.mem_cons.mp hy with rfl | hy'
                    · intro hxn
                      simp only [MemoryArea.contains_addr, MemoryArea.end_address] at hn hxn
                      omega
                    · have h9 := (List.pairwise_cons.mp h4).1 y hy'
                      intro hyn
                      simp only [area_before, MemoryArea.contains_addr,
                        MemoryArea.end_address] at h9 hn hyn
                      omega
                  · rcases List.mem_cons.mp hy with rfl | hy'
                    · obtain ⟨E, hE, hEn⟩ := ihc2 o ho' n hn
                      rw [pull_areas] at hE
                      have h6 := hCfst E hE
                      intro hxn
                      simp only [area_before, MemoryArea.contains_addr,
                        MemoryArea.end_address] at h6 hEn hxn
                      omega
                    · exact ihc3 o ho' y hy' n hn
                · intro o ho C' hC'
                  injection hC' with h7
                  subst h7
                  rcases List.mem_cons.mp ho with rfl | ho'
                  · exact le_refl _
                  · have h8 := hlb o ho'
                    simp only [MemoryArea.end_address] at h8
                    omega
            · -- the after-part is non-empty: it becomes the current entry
              rw [if_neg hAe]
              have hAe' : x.start + x.length < C.start + C.length := by
                simp only [MemoryArea.end_address] at hAe
                omega
              have hAfst : ∀ r ∈ rest, area_before
                  (⟨x.end_address, C.end_address - x.end_address⟩ : MemoryArea) r := by
                intro r hr
                have h6 := hCfst r hr
                simp only [area_before, MemoryArea.end_address] at h6 ⊢
                omega
              have h2A : ∀ y ∈ xs', 0 < y.length ∧
                  ∃ E ∈ (⟨x.end_address, C.end_address - x.end_address⟩ : MemoryArea) ::
                    rest, y.is_contained_in E := by
                intro y hy
                obtain ⟨hyval, E, hE, hconty⟩ := h2 y (List.mem_cons_of_mem _ hy)
                refine ⟨hyval, ?_⟩
                rcases List.mem_cons.mp hE with rfl | hE'
                · exact ⟨_, List.mem_cons_self _ _,
                    tail_contained_in_after hxpos hc hyval hconty
                      ((List.pairwise_cons.mp h4).1 y hy) (hstrict_for y hy hconty)⟩
                · exact ⟨E, List.mem_cons_of_mem _ hE', hconty⟩
              obtain ⟨ihc1, ihc2, ihc3, ihc4⟩ :=
                ih rest (some ⟨x.end_address, C.end_address - x.end_address⟩) xs'
                  (by rw [areasOf_some]; exact List.pairwise_cons.mpr ⟨hAfst, hrest⟩)
                  (by rw [areasOf_some]; exact h2A)
                  (by
                    rw [areasOf_some]
                    exact List.Chain'.imp (fun a b hab => gap_ok_after hxpos hc hab)
                      (List.Chain'.tail h3))
                  (List.pairwise_cons.mp h4).2
              have hlbA : ∀ o ∈ runFilter fuel rest
                  (some ⟨x.end_address, C.end_address - x.end_address⟩) xs',
                  x.end_address ≤ o.start := by
                intro o ho
                have h8 := ihc4 o ho _ rfl
                simpa using h8
              have hcovA : ∀ o ∈ runFilter fuel rest
                  (some ⟨x.end_address, C.end_address - x.end_address⟩) xs',
                  ∀ n, o.contains_addr n → ∃ E ∈ C :: rest, E.contains_addr n := by
                intro o ho n hn
                obtain ⟨E, hE, hEn⟩ := ihc2 o ho n hn
                rw [areasOf_some] at hE
                rcases List.mem_cons.mp hE with rfl | hE'
                · refine ⟨C, List.mem_cons_self _ _, ?_⟩
                  simp only [MemoryArea.contains_addr, MemoryArea.end_address] at hEn ⊢
                  omega
                · exact ⟨E, List.mem_cons_of_mem _ hE', hEn⟩
              have hdisxA : ∀ o ∈ runFilter fuel rest
                  (some ⟨x.end_address, C.end_address - x.end_address⟩) xs',
                  ∀ n, o.contains_addr n → ¬x.contains_addr n := by
                intro o ho n hn hxn
                obtain ⟨E, hE, hEn⟩ := ihc2 o ho n hn
                rw [areasOf_some] at hE
                rcases List.mem_cons.mp hE with rfl | hE'
                · simp only [MemoryArea.contains_addr, MemoryArea.end_address] at hEn hxn
                  omega
                · have h6 := hCfst E hE'
                  simp only [area_before, MemoryArea.contains_addr,
                    MemoryArea.end_address] at h6 hEn hxn
                  omega
              by_cases hBe : (⟨C.start, x.start - C.start⟩ : MemoryArea).end_address =
                  (⟨C.start, x.start - C.start⟩ : MemoryArea).start
              · rw [if_pos hBe]
                refine ⟨ihc1, hcovA, ?_, ?_⟩
                · intro o ho y hy n hn
                  rcases List.mem_cons.mp hy with rfl | hy'
                  · exact fun hxn => hdisxA o ho n hn hxn
                  · exact ihc3 o ho y hy' n hn
                · intro o ho C' hC'
                  injection hC' with h7
                  subst h7
                  have h8 := hlbA o ho
                  simp only [MemoryArea.end_address] at h8
                  omega
              · rw [if_neg hBe]
                refine ⟨List.pairwise_cons.mpr ⟨?_, ihc1⟩, ?_, ?_, ?_⟩
                · intro o ho
                  have h8 := hlbA o ho
                  simp only [area_before, MemoryArea.end_address] at h8 ⊢
                  omega
                · intro o ho n hn
                  rcases List.mem_cons.mp ho with rfl | ho'
                  · refine ⟨C, List.mem_cons_self _ _, ?_⟩
                    simp only [MemoryArea.contains_addr, MemoryArea.end_address] at hn ⊢
                    omega
                  · exact hcovA o ho' n hn
                · intro o ho y hy n hn
                  rcases List.mem_cons.mp ho with rfl | ho'
                  · rcases List.mem_cons.mp hy with rfl | hy'
                    · intro hxn
                      simp only [MemoryArea.contains_addr, MemoryArea.end_address] at hn hxn
                      omega
                    · have h9 := (List.pairwise_cons.mp h4).1 y hy'
                      intro hyn
                      simp only [area_before, MemoryArea.contains_addr,
                        MemoryArea.end_address] at h9 hn hyn
                      omega
                  · rcases List.mem_cons.mp hy with rfl | hy'
                    · exact fun hxn => hdisxA o ho' n hn hxn
                    · exact ihc3 o ho' y hy' n hn
                · intro o ho C' hC'
                  injection hC' with h7
                  subst h7
                  rcases List.mem_cons.mp ho with rfl | ho'
                  · exact le_refl _
                  · have h8 := hlbA o ho'
                    simp only [MemoryArea.end_address] at h8
                    omega
          · -- the exclusion is not contained: emit the current entry unchanged
            rw [runFilter_cons_eq, if_neg hc]
            obtain ⟨_, Ex, hEx, hcontx⟩ := hxget
            have hEx' : Ex ∈ rest := by
              rcases List.mem_cons.mp hEx with rfl | h
              · exact absurd hcontx hc
              · exact h
            have hxlow : C.end_address ≤ x.start := by
              have hbnd := contained_bounds hxpos hcontx
              have h6 := hCfst Ex hEx'
              simp only [area_before, MemoryArea.end_address] at h6 hbnd ⊢
              omega
            have hall : ∀ y ∈ x :: xs', 0 < y.length ∧ ∃ E ∈ rest, y.is_contained_in E := by
              intro y hy
              rcases List.mem_cons.mp hy with rfl | hy'
              · exact ⟨hxpos, Ex, hEx', hcontx⟩
              · obtain ⟨hyval, E, hE, hconty⟩ := h2 y (List.mem_cons_of_mem _ hy')
                refine ⟨hyval, ?_⟩
                rcases List.mem_cons.mp hE with rfl | hE'
                · exact (no_tail_in_C_skip hxpos hxlow hyval hconty
                    ((List.pairwise_cons.mp h4).1 y hy')).elim
                · exact ⟨E, hE', hconty⟩
            obtain ⟨ihc1, ihc2, ihc3, ihc4⟩ :=
              ih (pull rest).2 (pull rest).1 (x :: xs')
                (by rw [pull_areas]; exact hrest)
                (by rw [pull_areas]; exact hall)
                (by rw [pull_areas]; exact List.Chain'.imp (fun a b hab => gap_ok_tail hab) h3)
                h4
            have hlb := pulled_lower_bound hCfst ihc4
            refine ⟨List.pairwise_cons.mpr ⟨fun o ho => hlb o ho, ihc1⟩, ?_, ?_, ?_⟩
            · intro o ho n hn
              rcases List.mem_cons.mp ho with rfl | ho'
              · exact ⟨o, List.mem_cons_self _ _, hn⟩
              · obtain ⟨E, hE, hEn⟩ := ihc2 o ho' n hn
                rw [pull_areas] at hE
                exact ⟨E, List.mem_cons_of_mem C hE, hEn⟩
            · intro o ho y hy n hn
              rcases List.mem_cons.mp ho with rfl | ho'
              · obtain ⟨hyval, E, hE, hconty⟩ := hall y hy
                have hbnd := contained_bounds hyval hconty
                have h6 := hCfst E hE
                intro hyn
                simp only [area_before, MemoryArea.contains_addr,
                  MemoryArea.end_address] at h6 hbnd hn hyn
                omega
              · exact ihc3 o ho' y hy n hn
            · intro o ho C' hC'
              injection hC' with h7
              subst h7
              rcases List.mem_cons.mp ho with rfl | ho'
              · exact le_refl _
              · have h8 := hlb o ho'
                simp only [MemoryArea.end_address] at h8
                omega

/-- Claim C6, counterexample.  The claim's stated preconditions (inputs
non-overlapping — not sorted; each exclusion properly inside exactly one
input area; exclusions non-overlapping and sorted by start) hold for the
input map `[(0x2000, 0x1000), (0x0, 0x1000)]` with exclusions
`[(0x100, 0x100), (0x2100, 0x100)]`, yet the filter tests the first
exclusion against the first input area, fails containment, and emits
`(0x2000, 0x1000)` whole: the output is not in ascending order and its
first element overlaps the second exclusion at address `0x2100`. -/
theorem C6_counterexample :
    area_before (⟨0x0, 0x1000⟩ : MemoryArea) ⟨0x2000, 0x1000⟩ ∧
    (MemoryArea.is_contained_in ⟨0x100, 0x100⟩ ⟨0x0, 0x1000⟩ ∧
      ¬MemoryArea.is_contained_in ⟨0x100, 0x100⟩ ⟨0x2000, 0x1000⟩) ∧
    (MemoryArea.is_contained_in ⟨0x2100, 0x100⟩ ⟨0x2000, 0x1000⟩ ∧
      ¬MemoryArea.is_contained_in ⟨0x2100, 0x100⟩ ⟨0x0, 0x1000⟩) ∧
    area_before (⟨0x100, 0x100⟩ : MemoryArea) ⟨0x2100, 0x100⟩ ∧
    memoryMapFilter [⟨0x100, 0x100⟩, ⟨0x2100, 0x100⟩]
        [⟨0x2000, 0x1000⟩, ⟨0x0, 0x1000⟩] =
      [⟨0x2000, 0x1000⟩, ⟨0x0, 0x100⟩, ⟨0x200, 0xe00⟩] ∧
    ¬area_before (⟨0x2000, 0x1000⟩ : MemoryArea) ⟨0x0, 0x100⟩ ∧
    (⟨0x2000, 0x1000⟩ : MemoryArea) ∈
      memoryMapFilter [⟨0x100, 0x100⟩, ⟨0x2100, 0x100⟩]
        [⟨0x2000, 0x1000⟩, ⟨0x0, 0x1000⟩] ∧
    MemoryArea.contains_addr ⟨0x2000, 0x1000⟩ 0x2100 ∧
    MemoryArea.contains_addr ⟨0x2100, 0x100⟩ 0x2100 := by
  decide

/-- Claim C6 (amended): if the input areas are non-overlapping AND sorted
in ascending order, the exclusions are non-empty, non-overlapping, sorted,
and each properly contained in an input area, and adjacent exclusions
sharing an input area either have a gap between them or the later one
stops short of that area's end, then the filter's output is pairwise
disjoint and ascending (`area_before` chain), contained in the union of
the input areas, and disjoint from every exclusion area. -/
theorem C6_filter_sound (to_exclude inputs : List MemoryArea)
    (hin : List.Pairwise area_before inputs)
    (hexcl : ∀ x ∈ to_exclude, 0 < x.length ∧ ∃ E ∈ inputs, x.is_contained_in E)
    (hsorted : List.Pairwise area_before to_exclude)
    (hgap : List.Chain' (gap_ok inputs) to_exclude) :
    List.Pairwise area_before (memoryMapFilter to_exclude inputs) ∧
    (∀ o ∈ memoryMapFilter to_exclude inputs, ∀ n, o.contains_addr n →
      ∃ E ∈ inputs, E.contains_addr n) ∧
    (∀ o ∈ memoryMapFilter to_exclude inputs, ∀ x ∈ to_exclude, ∀ n,
      o.contains_addr n → ¬x.contains_addr n) := by
  unfold memoryMapFilter
  have h := runFilter_sound (2 * inputs.length + to_exclude.length + 1)
    inputs.tail inputs.head? to_exclude
    (by rw [areasOf_head_tail]; exact hin)
    (by rw [areasOf_head_tail]; exact hexcl)
    (by rw [areasOf_head_tail]; exact hgap)
    hsorted
  rw [areasOf_head_tail] at h
  exact ⟨h.1, h.2.1, h.2.2.1⟩

/-- Claim C6, witness: the S1 scenario satisfies the amended hypotheses,
so its output is sorted, covered by the input and disjoint from both
exclusions. -/
theorem C6_witness :
    List.Pairwise area_before
      (memoryMapFilter [⟨0x10000, 0x5000⟩, ⟨0x20000, 0x2000⟩] [⟨0x0, 0x100000⟩]) ∧
    (∀ o ∈ memoryMapFilter [⟨0x10000, 0x5000⟩, ⟨0x20000, 0x2000⟩] [⟨0x0, 0x100000⟩],
      ∀ n, o.contains_addr n →
        ∃ E ∈ [(⟨0x0, 0x100000⟩ : MemoryArea)], E.contains_addr n) ∧
    (∀ o ∈ memoryMapFilter [⟨0x10000, 0x5000⟩, ⟨0x20000, 0x2000⟩] [⟨0x0, 0x100000⟩],
      ∀ x ∈ [(⟨0x10000, 0x5000⟩ : MemoryArea), ⟨0x20000, 0x2000⟩], ∀ n,
        o.contains_addr n → ¬x.contains_addr n) :=
  C6_filter_sound [⟨0x10000, 0x5000⟩, ⟨0x20000, 0x2000⟩] [⟨0x0, 0x100000⟩]
    (by decide) (by decide) (by decide)
    (by rw [List.chain'_pair]; decide)
